import Mathlib

/-!
Shallow embedding of the safety/relevance pipeline of the legal-advice API
(`app/utils/validator.py`, `app/services/llm_service.py`).

Modelling conventions:
- Python strings are `List Char`; lowercasing is `List.map Char.toLower`
  (ASCII, which covers all lexicon entries and pattern alphabets).
- The three word lists (`banned_words.json`, `legal_keywords.json`,
  `legal_phrases.json`) are data files; every definition is parametric in
  them, so theorems quantify over the loaded lexicon.
- Regular-expression use in the source is limited to: a word-bounded
  literal search (`\b<word>\b`), literal-character removal classes, and
  injection patterns built from literals, bounded wildcard gaps `.{0,n}`,
  alternations of literals, and one trailing optional character.  These are
  embedded as executable matchers below.
-/

open List

abbrev Str := List Char

/-- Python `text.lower()` (ASCII range, as exercised by the lexicon). -/
def pyLower (s : Str) : Str := s.map Char.toLower

/-- Characters removed by `re.sub(r"[\s\-_\.]+", "", text)`:
whitespace, hyphen, underscore, period. -/
def isSeparator (c : Char) : Bool :=
  c = ' ' || c = '\t' || c = '\n' || c = '\r' || c = '\x0b' || c = '\x0c' ||
  c = '-' || c = '_' || c = '.'

/-- The separator-stripping normalizer: `re.sub(r"[\s\-_\.]+", "", text)`
removes every separator character (the `+` only groups runs; removal is
per-character). -/
def strip_separators (s : Str) : Str := s.filter (fun c => !isSeparator c)

/-- The leetspeak substitution table of `_check_leetspeak`, in source order. -/
def leet_map : List (Char × Char) :=
  [('4', 'a'), ('@', 'a'), ('3', 'e'), ('1', 'i'), ('!', 'i'),
   ('0', 'o'), ('5', 's'), ('$', 's'), ('7', 't'), ('|', 'l')]

/-- Python `s.replace(k, v)` for single characters is a per-character map. -/
def replaceChar (k v : Char) (s : Str) : Str :=
  s.map (fun c => if c = k then v else c)

/-- The leetspeak fold of `_check_leetspeak`: the ten successive
single-character `str.replace` calls, applied in table order. -/
def fold_leetspeak (s : Str) : Str :=
  leet_map.foldl (fun acc kv => replaceChar kv.1 kv.2 acc) s

/-- The combined substitution table as a single character function. -/
def leetChar (c : Char) : Char :=
  if c = '4' ∨ c = '@' then 'a'
  else if c = '3' then 'e'
  else if c = '1' ∨ c = '!' then 'i'
  else if c = '0' then 'o'
  else if c = '5' ∨ c = '$' then 's'
  else if c = '7' then 't'
  else if c = '|' then 'l'
  else c

theorem leetChar_chain (c : Char) :
    (fun c => if c = '|' then 'l' else c)
    ((fun c => if c = '7' then 't' else c)
    ((fun c => if c = '$' then 's' else c)
    ((fun c => if c = '5' then 's' else c)
    ((fun c => if c = '0' then 'o' else c)
    ((fun c => if c = '!' then 'i' else c)
    ((fun c => if c = '1' then 'i' else c)
    ((fun c => if c = '3' then 'e' else c)
    ((fun c => if c = '@' then 'a' else c)
    ((fun c => if c = '4' then 'a' else c) c))))))))) = leetChar c := by
  by_cases h1 : c = '4'; · subst h1; rfl
  by_cases h2 : c = '@'; · subst h2; rfl
  by_cases h3 : c = '3'; · subst h3; rfl
  by_cases h4 : c = '1'; · subst h4; rfl
  by_cases h5 : c = '!'; · subst h5; rfl
  by_cases h6 : c = '0'; · subst h6; rfl
  by_cases h7 : c = '5'; · subst h7; rfl
  by_cases h8 : c = '$'; · subst h8; rfl
  by_cases h9 : c = '7'; · subst h9; rfl
  by_cases h10 : c = '|'; · subst h10; rfl
  simp [leetChar, h1, h2, h3, h4, h5, h6, h7, h8, h9, h10]

theorem fold_leetspeak_eq_map (s : Str) : fold_leetspeak s = s.map leetChar := by
  induction s with
  | nil => rfl
  | cons c s ih =>
    simp only [fold_leetspeak, leet_map, List.foldl, replaceChar, List.map_cons] at ih ⊢
    rw [ih, List.cons_eq_cons]
    exact ⟨leetChar_chain c, rfl⟩

/-- Python's substring test `needle in hay` on strings. -/
def isSubstring (needle hay : Str) : Bool :=
  hay.tails.any (fun t => needle.isPrefixOf t)

theorem isSubstring_true_iff (needle hay : Str) :
    isSubstring needle hay = true ↔ needle <:+: hay := by
  simp only [isSubstring, List.any_eq_true, List.mem_tails,
    List.isPrefixOf_iff_prefix, List.infix_iff_prefix_suffix]
  exact ⟨fun ⟨t, ht, hp⟩ => ⟨t, hp, ht⟩, fun ⟨t, hp, ht⟩ => ⟨t, ht, hp⟩⟩

/-- Python `\w` on the ASCII range: letters, digits, underscore. -/
def isWordChar (c : Char) : Bool := c.isAlphanum || c = '_'

/-- Python's `\b`: a position where exactly one side is a word character
(positions outside the string count as non-word). -/
def wordBoundaryAt (cs : Str) (p : Nat) : Bool :=
  (if p = 0 then false else ((cs[p - 1]?).map isWordChar).getD false) !=
  (((cs[p]?).map isWordChar).getD false)

/-- One candidate position of `re.search(r"\b" + re.escape(w) + r"\b", cs)`:
the escaped word is matched literally between two `\b` assertions. -/
def wordMatchAt (w cs : Str) (p : Nat) : Bool :=
  wordBoundaryAt cs p && w.isPrefixOf (cs.drop p) && wordBoundaryAt cs (p + w.length)

/-- Truth of `re.search(r"\b" + re.escape(w) + r"\b", cs) is not None`. -/
def wordSearch (w cs : Str) : Bool :=
  (List.range (cs.length + 1)).any (wordMatchAt w cs)

/-- The direct word-boundary pass of `contains_banned_words`
(`re.search(r"\b" + re.escape(word.lower()) + r"\b", text_lower)`). -/
def check_direct (banned : List Str) (text_lower : Str) : List Str :=
  banned.filter (fun w => wordSearch (pyLower w) text_lower)

/-- Embedding of `_check_spacing_evasion`: strip separators from the (already lowered)
text and test `word.lower() in cleaned_text` for each banned word.  Note the
word itself is tested verbatim — its own separators are NOT removed. -/
def check_spacing_evasion (text : Str) (banned : List Str) : List Str :=
  let cleaned_text := strip_separators text
  banned.filter (fun w => isSubstring (pyLower w) cleaned_text)

/-- Embedding of `_check_leetspeak`: fold the (already lowered) text through the leet
table and test `word.lower() in normalized_text` for each banned word. -/
def check_leetspeak (text : Str) (banned : List Str) : List Str :=
  let normalized_text := fold_leetspeak text
  banned.filter (fun w => isSubstring (pyLower w) normalized_text)

/-- Embedding of `contains_banned_words`: union of the three passes with duplicates
removed (`list(set(found))`; the Python set's iteration order is arbitrary,
so the contract is set membership — `dedup` realizes one such order). -/
def contains_banned_words (banned : List Str) (text : Str) : List Str :=
  let text_lower := pyLower text
  (check_direct banned text_lower ++
   check_spacing_evasion text_lower banned ++
   check_leetspeak text_lower banned).dedup

/-- Embedding of `is_legal_topic`: keyword pass first, then phrase pass, each a plain
substring test on the lowered text, short-circuiting on the first hit. -/
def is_legal_topic (keywords phrases : List Str) (text : Str) : Bool :=
  let text_lower := pyLower text
  if keywords.any (fun k => isSubstring (pyLower k) text_lower) then true
  else if phrases.any (fun p => isSubstring (pyLower p) text_lower) then true
  else false

/-- A token of the injection regexes: a literal string, a bounded wildcard
gap `.{0,n}` (where `.` excludes the newline), an alternation of literal
strings, or an optional single character (`s?`). -/
inductive Tok where
  | lit (s : Str)
  | gap (n : Nat)
  | alts (ss : List Str)
  | opt (c : Char)

/-- Does a token sequence match a prefix-anchored occurrence at the head of
`cs` (the rest of `cs` may remain)?  Mirrors the regex semantics of the
patterns used by `validate_input_safety`. -/
def matchesAt : List Tok → Str → Bool
  | [], _ => true
  | .lit s :: ts, cs => s.isPrefixOf cs && matchesAt ts (cs.drop s.length)
  | .alts ss :: ts, cs => ss.any (fun s => s.isPrefixOf cs && matchesAt ts (cs.drop s.length))
  | .gap n :: ts, cs =>
      (List.range (n + 1)).any (fun k =>
        decide (k ≤ cs.length) && (cs.take k).all (fun c => c ≠ '\n') &&
        matchesAt ts (cs.drop k))
  | .opt c :: ts, cs =>
      (match cs with
       | c' :: rest => c' = c && matchesAt ts rest
       | [] => false) ||
      matchesAt ts cs

/-- Truth of `re.search(pattern, cs) is not None` for a tokenized pattern: some
suffix position admits a match. -/
def reSearch (p : List Tok) (cs : Str) : Bool :=
  cs.tails.any (matchesAt p)

/-- The eleven `injection_patterns` of `validate_input_safety`, tokenized
in source order. -/
def injection_patterns : List (List Tok) :=
  [ [Tok.lit "ignore".toList, Tok.gap 10,
     Tok.alts ["previous".toList, "above".toList, "system".toList, "all".toList],
     Tok.gap 10, Tok.lit "instruction".toList, Tok.opt 's'],
    [Tok.lit "act".toList, Tok.gap 10, Tok.lit "as".toList, Tok.gap 10,
     Tok.alts ["if".toList, "though".toList]],
    [Tok.lit "pretend".toList, Tok.gap 10,
     Tok.alts ["to".toList, "that".toList], Tok.gap 10, Tok.lit "be".toList],
    [Tok.lit "roleplay".toList, Tok.gap 10, Tok.lit "as".toList],
    [Tok.lit "you".toList, Tok.gap 10, Tok.lit "are".toList, Tok.gap 10,
     Tok.alts ["now".toList, "actually".toList]],
    [Tok.lit "forget".toList, Tok.gap 10,
     Tok.alts ["everything".toList, "all".toList, "what".toList]],
    [Tok.lit "override".toList, Tok.gap 10,
     Tok.alts ["your".toList, "the".toList], Tok.gap 10,
     Tok.alts ["instructions".toList, "rules".toList, "guidelines".toList]],
    [Tok.lit "jailbreak".toList],
    [Tok.lit "developer".toList, Tok.gap 10, Tok.lit "mode".toList],
    [Tok.lit "admin".toList, Tok.gap 10, Tok.lit "mode".toList],
    [Tok.lit "root".toList, Tok.gap 10, Tok.lit "access".toList] ]

/-- The injection-pattern stage of `validate_input_safety`:
`re.search(pattern, text, re.IGNORECASE)` over the pattern list.  With
all-lowercase ASCII patterns, `re.IGNORECASE` matching equals matching the
lowered text. -/
def detect_injection (text : Str) : Bool :=
  injection_patterns.any (fun p => reSearch p (pyLower text))

/-- Embedding of `validate_input_safety`: banned-words check, then topical check, then
injection check; returns `(is_safe, banned_words_found, reason)`. -/
def validate_input_safety (banned keywords phrases : List Str) (text : Str) :
    Bool × List Str × String :=
  let banned_words_found := contains_banned_words banned text
  if banned_words_found ≠ [] then
    (false, banned_words_found, "Contains banned words")
  else if !is_legal_topic keywords phrases text then
    (false, [], "Off-topic request")
  else if detect_injection text then
    (false, [], "Potential prompt injection detected")
  else
    (true, [], "Input is safe and relevant")

/-- The possible states of the JSON file backing a word list, as
distinguished by the `try/except` arms of `load_word_list`: the file may be
absent (`FileNotFoundError`), unparsable (`json.JSONDecodeError`), fail in
some other way (the final `except Exception`), or resolve to a list. -/
inductive SourceState where
  | missing
  | malformed
  | otherFailure
  | resolved (data : List Str)

/-- The errors `load_word_list` raises, one per `except` arm. -/
inductive LoadError where
  | fileNotFound
  | invalidJson
  | other
deriving DecidableEq

/-- Embedding of `load_word_list`: re-raises on a missing, unparsable, or otherwise
failing source and returns the parsed list unchanged otherwise.  There is
no emptiness check: a source that parses to `[]` is returned as `[]`. -/
def load_word_list : SourceState → Except LoadError (List Str)
  | .missing => .error .fileNotFound
  | .malformed => .error .invalidJson
  | .otherFailure => .error .other
  | .resolved data => .ok data

/-- A successful reply from `_call_openai` (`usage` is metadata the safety
logic never inspects, so it is omitted). -/
structure BackendReply where
  content : Str
  model : Str

/-- The dictionary `LLMService.generate_response` returns, with the
optional `error` and `banned_words` keys made explicit. -/
structure LLMResult where
  content : Str
  model : Str
  error : Option String
  banned_words : List Str
deriving DecidableEq

/-- The fixed refusal text of the output-validation branch. -/
def refusalMessage : Str := "I\x27m sorry, I cannot provide a response to that request.".toList

/-- The fixed fallback text of the `except` branch (backend failure). -/
def backendFailureMessage : Str := "I\x27m sorry, I\x27m unable to process your request at this time.".toList

/-- Embedding of `LLMService.generate_response`, as a function of the backend outcome
(`_call_openai` either raises — carrying `str(e)` — or returns a reply;
`user_input` only feeds the prompt passed to the backend, so it is absorbed
into the outcome parameter).  A successful reply is re-checked with
`contains_banned_words`; a match replaces it with the refusal result. -/
def generate_response (banned : List Str) (backend : Except String BackendReply) :
    LLMResult :=
  match backend with
  | .error e => { content := backendFailureMessage, model := "error".toList,
                  error := some e, banned_words := [] }
  | .ok reply =>
      let banned_words_in_response := contains_banned_words banned reply.content
      if banned_words_in_response ≠ [] then
        { content := refusalMessage, model := reply.model,
          error := some "response_validation_failed",
          banned_words := banned_words_in_response }
      else
        { content := reply.content, model := reply.model,
          error := none, banned_words := [] }

theorem mem_check_direct {banned : List Str} {tl w : Str} :
    w ∈ check_direct banned tl ↔ w ∈ banned ∧ wordSearch (pyLower w) tl = true := by
  simp [check_direct, List.mem_filter]

theorem mem_check_spacing {banned : List Str} {tl w : Str} :
    w ∈ check_spacing_evasion tl banned ↔
      w ∈ banned ∧ isSubstring (pyLower w) (strip_separators tl) = true := by
  simp [check_spacing_evasion, List.mem_filter]

theorem mem_check_leetspeak {banned : List Str} {tl w : Str} :
    w ∈ check_leetspeak tl banned ↔
      w ∈ banned ∧ isSubstring (pyLower w) (fold_leetspeak tl) = true := by
  simp [check_leetspeak, List.mem_filter]

theorem mem_contains_banned_words {banned : List Str} {text w : Str} :
    w ∈ contains_banned_words banned text ↔
      w ∈ check_direct banned (pyLower text) ∨
      w ∈ check_spacing_evasion (pyLower text) banned ∨
      w ∈ check_leetspeak (pyLower text) banned := by
  simp [contains_banned_words, List.mem_dedup, List.mem_append, or_assoc]

theorem leetChar_idem (c : Char) : leetChar (leetChar c) = leetChar c := by
  by_cases h1 : c = '4'; · subst h1; rfl
  by_cases h2 : c = '@'; · subst h2; rfl
  by_cases h3 : c = '3'; · subst h3; rfl
  by_cases h4 : c = '1'; · subst h4; rfl
  by_cases h5 : c = '!'; · subst h5; rfl
  by_cases h6 : c = '0'; · subst h6; rfl
  by_cases h7 : c = '5'; · subst h7; rfl
  by_cases h8 : c = '$'; · subst h8; rfl
  by_cases h9 : c = '7'; · subst h9; rfl
  by_cases h10 : c = '|'; · subst h10; rfl
  have hfix : leetChar c = c := by
    simp [leetChar, h1, h2, h3, h4, h5, h6, h7, h8, h9, h10]
  rw [hfix]; exact hfix

/-- If an obfuscation `obf` of a banned term occurs in the lowered text and
folds to the lowered term, the leetspeak pass reports the term. -/
theorem mem_contains_banned_of_leet {banned : List Str} {text T obf : Str}
    (hT : T ∈ banned) (hobf : obf.map leetChar = pyLower T)
    (hinf : obf <:+: pyLower text) : T ∈ contains_banned_words banned text := by
  have hleet : isSubstring (pyLower T) (fold_leetspeak (pyLower text)) = true := by
    rw [fold_leetspeak_eq_map, isSubstring_true_iff, ← hobf]
    exact List.IsInfix.map leetChar hinf
  exact mem_contains_banned_words.mpr (Or.inr (Or.inr (mem_check_leetspeak.mpr ⟨hT, hleet⟩)))

/-- If the lowered term survives in the separator-stripped lowered text, the
separator-evasion pass reports the term. -/
theorem mem_contains_banned_of_spacing {banned : List Str} {text T : Str}
    (hT : T ∈ banned) (hinf : pyLower T <:+: strip_separators (pyLower text)) :
    T ∈ contains_banned_words banned text := by
  have hsp : isSubstring (pyLower T) (strip_separators (pyLower text)) = true :=
    (isSubstring_true_iff _ _).mpr hinf
  exact mem_contains_banned_words.mpr (Or.inr (Or.inl (mem_check_spacing.mpr ⟨hT, hsp⟩)))

/-- C9: the evasion normalizers are idempotent on every string: stripping
separators from already-stripped text changes nothing, and refolding
leetspeak-folded text changes nothing.  (Both are total Lean functions,
which is the embedding of "never fail".) -/
theorem claim_C9_normalizers_idempotent (x : Str) :
    strip_separators (strip_separators x) = strip_separators x ∧
    fold_leetspeak (fold_leetspeak x) = fold_leetspeak x := by
  constructor
  · simp [strip_separators, List.filter_filter]
  · simp only [fold_leetspeak_eq_map, List.map_map]
    exact List.map_congr_left (fun c _ => leetChar_idem c)

/-- C10: for every lexicon and input text, every element of the
disallowed-content detector's result is an entry of the lexicon (never a
fragment of the input), and no element repeats. -/
theorem claim_C10_detector_invariant (banned : List Str) (text : Str) :
    (∀ w ∈ contains_banned_words banned text, w ∈ banned) ∧
    (contains_banned_words banned text).Nodup := by
  constructor
  · intro w hw
    rcases mem_contains_banned_words.mp hw with h | h | h
    · exact (mem_check_direct.mp h).1
    · exact (mem_check_spacing.mp h).1
    · exact (mem_check_leetspeak.mp h).1
  · exact List.nodup_dedup _

/-- C8: `is_legal_topic` returns true iff the lowered text contains some
topic keyword or some topic phrase as a plain substring (the definition
checks keywords first and stops at the first hit, mirroring the source's
short-circuit order). -/
theorem claim_C8_topic_iff (keywords phrases : List Str) (text : Str) :
    is_legal_topic keywords phrases text = true ↔
      ((∃ k ∈ keywords, pyLower k <:+: pyLower text) ∨
       (∃ p ∈ phrases, pyLower p <:+: pyLower text)) := by
  simp only [is_legal_topic]
  split_ifs with h1 h2 <;>
    simp_all [List.any_eq_true, isSubstring_true_iff]

/-- C4 counterexample: a source that resolves to the empty list does not
fail — `load_word_list` returns the empty lexicon successfully, contrary to
the claim that an empty source causes a load error. -/
theorem claim_C4_counterexample :
    load_word_list (SourceState.resolved []) = Except.ok [] := rfl

/-- C4 (amended): `load_word_list` fails exactly when the backing source is
missing, malformed, or otherwise unreadable; a source that resolves to a
sequence — including the empty sequence — is returned unchanged, so an
empty source yields an empty lexicon rather than an error. -/
theorem claim_C4_amended (s : SourceState) :
    ((∃ data, load_word_list s = Except.ok data) ↔
      (∃ data, s = SourceState.resolved data)) ∧
    (∀ data, load_word_list (SourceState.resolved data) = Except.ok data) := by
  constructor
  · cases s <;> simp [load_word_list]
  · intro data; rfl

/-- C3: when the backend reply's text matches the disallowed-content
detector, `generate_response` never forwards it: the result carries the
fixed refusal message (a different fixed text from the backend-failure
branch), the dedicated `response_validation_failed` error marker, and the
matched terms.  The check does not consult the inbound verdict, so it fires
even for a SAFE request. -/
theorem claim_C3_output_validation (banned : List Str) (reply : BackendReply)
    (h : contains_banned_words banned reply.content ≠ []) :
    generate_response banned (Except.ok reply) =
      { content := refusalMessage, model := reply.model,
        error := some "response_validation_failed",
        banned_words := contains_banned_words banned reply.content } ∧
    refusalMessage ≠ backendFailureMessage := by
  refine ⟨?_, by decide⟩
  simp [generate_response, h]

/-- C3 witness: the end-to-end scenario — a generated reply containing
"kill" is replaced by the refusal result. -/
theorem claim_C3_witness :
    generate_response ["kill".toList]
        (Except.ok ⟨"You should kill your opponent.".toList, "gpt-4".toList⟩) =
      { content := refusalMessage, model := "gpt-4".toList,
        error := some "response_validation_failed",
        banned_words := ["kill".toList] } ∧
    refusalMessage ≠ backendFailureMessage :=
  claim_C3_output_validation ["kill".toList]
    ⟨"You should kill your opponent.".toList, "gpt-4".toList⟩ (by decide)

/-- C7: for every lexicon term T and every text containing (in its lowered
form) an obfuscation `obf` of T whose characters fold to T under the fixed
leetspeak table, the detector reports T: the leetspeak pass folds the whole
lowered text through the table and takes plain substring containment. -/
theorem claim_C7_leetspeak_detected (banned : List Str) (text T obf : Str)
    (hT : T ∈ banned) (hobf : obf.map leetChar = pyLower T)
    (hinf : obf <:+: pyLower text) : T ∈ contains_banned_words banned text :=
  mem_contains_banned_of_leet hT hobf hinf

/-- C7 witness: "k1LL" is detected as "kill". -/
theorem claim_C7_witness :
    "kill".toList ∈ contains_banned_words ["kill".toList] "how to k1LL someone".toList :=
  claim_C7_leetspeak_detected ["kill".toList] "how to k1LL someone".toList
    "kill".toList "k1ll".toList (by decide) (by decide) (by decide)

/-- Stripping separators undoes separator interspersion of a
separator-free word. -/
theorem strip_separators_intersperse (sep : Char) (hsep : isSeparator sep = true) :
    ∀ w : Str, (∀ c ∈ w, isSeparator c = false) →
      strip_separators (List.intersperse sep w) = w
  | [], _ => rfl
  | [a], h => by simp [strip_separators, List.intersperse, h a (by simp)]
  | a :: b :: t, h => by
    have ht : strip_separators (List.intersperse sep (b :: t)) = b :: t :=
      strip_separators_intersperse sep hsep (b :: t)
        (fun c hc => h c (List.mem_cons_of_mem a hc))
    have ha : isSeparator a = false := h a (by simp)
    simp only [List.intersperse, strip_separators, List.filter_cons] at ht ⊢
    simp [ha, hsep, ht]

/-- C2 counterexample: the lexicon phrase "practice law" (asserted to be a
lexicon entry by the repository's own tests), interspersed with hyphens
between every character, is NOT detected — the separator-evasion pass
compares the term with its internal separator intact against the
separator-stripped text, so the claim fails on terms that contain internal
separators. -/
theorem claim_C2_counterexample :
    "p-r-a-c-t-i-c-e- -l-a-w".toList = List.intersperse '-' "practice law".toList ∧
    contains_banned_words ["practice law".toList] "p-r-a-c-t-i-c-e- -l-a-w".toList = [] := by
  decide

/-- C2 (amended): the separator-evasion pass tests the term verbatim (its
own internal separators are NOT removed) against the separator-stripped
lowered text; consequently separator insertion between every character is
caught exactly for terms without internal separators: if the lowered term
survives as a contiguous run of the separator-stripped lowered text — in
particular when a separator is interspersed between every character of a
separator-free term — the detector reports it. -/
theorem claim_C2_amended (banned : List Str) (text T : Str) (sep : Char)
    (hT : T ∈ banned) :
    (pyLower T <:+: strip_separators (pyLower text) →
       T ∈ contains_banned_words banned text) ∧
    (isSeparator sep = true → (∀ c ∈ pyLower T, isSeparator c = false) →
       List.intersperse sep (pyLower T) <:+: pyLower text →
       T ∈ contains_banned_words banned text) := by
  constructor
  · exact fun hinf => mem_contains_banned_of_spacing hT hinf
  · intro hsep hfree hinf
    have h1 : strip_separators (List.intersperse sep (pyLower T)) <:+:
        strip_separators (pyLower text) := List.IsInfix.filter _ hinf
    rw [strip_separators_intersperse sep hsep (pyLower T) hfree] at h1
    exact mem_contains_banned_of_spacing hT h1

/-- C2 witness: "k i l l" (space interspersed between every character of
"kill") is detected. -/
theorem claim_C2_witness :
    "kill".toList ∈ contains_banned_words ["kill".toList] "k i l l someone".toList :=
  (claim_C2_amended ["kill".toList] "k i l l someone".toList "kill".toList ' '
    (by decide)).2 (by decide) (by decide) (by decide)

/-- The spec-side notion of a whole-word occurrence: the word appears
contiguously, and its neighbours (when they exist) are non-word
characters. -/
def occursWholeWord (w cs : Str) : Prop :=
  ∃ pre post, cs = pre ++ w ++ post ∧
    (∀ c ∈ pre.getLast?, isWordChar c = false) ∧
    (∀ c ∈ post.head?, isWordChar c = false)

theorem head?_append_of_ne_nil {w post : Str} (hne : w ≠ []) :
    (w ++ post).head? = w.head? := by
  cases w with
  | nil => exact absurd rfl hne
  | cons a t => rfl

/-- A whole-word occurrence of a word-character-delimited word is found by
the `\b`-anchored regex search. -/
theorem wordSearch_of_occurs {w cs : Str} (hne : w ≠ [])
    (hhead : ∀ c ∈ w.head?, isWordChar c = true)
    (hlast : ∀ c ∈ w.getLast?, isWordChar c = true)
    (hocc : occursWholeWord w cs) : wordSearch w cs = true := by
  obtain ⟨pre, post, heq, hpre, hpost⟩ := hocc
  rw [List.append_assoc] at heq
  have hwlen : 1 ≤ w.length := List.length_pos.mpr hne
  have hlen : pre.length ≤ cs.length := by
    rw [heq, List.length_append]; omega
  have hstart : cs[pre.length]? = w.head? := by
    rw [heq, List.getElem?_append_right (Nat.le_refl _), Nat.sub_self,
      ← List.head?_eq_getElem?, head?_append_of_ne_nil hne]
  have hafter_start : ((cs[pre.length]?).map isWordChar).getD false = true := by
    cases hw : w.head? with
    | none => exact absurd (List.head?_eq_none_iff.mp hw) hne
    | some c => rw [hstart, hw]; simp [hhead c (by rw [hw]; rfl)]
  have hb1 : wordBoundaryAt cs pre.length = true := by
    unfold wordBoundaryAt
    by_cases hp0 : pre.length = 0
    · rw [hp0] at hafter_start
      simp [hp0, hafter_start]
    · have hbefore : cs[pre.length - 1]? = pre.getLast? := by
        rw [heq, List.getElem?_append_left (by omega), List.getLast?_eq_getElem?]
      have hpre_ne : pre ≠ [] := fun h => hp0 (by rw [h]; rfl)
      cases hl : pre.getLast? with
      | none => exact absurd (List.getLast?_eq_none_iff.mp hl) hpre_ne
      | some c =>
        have hc : isWordChar c = false := hpre c (by rw [hl]; rfl)
        simp [hp0, hbefore, hl, hc, hafter_start]
  have hdrop : cs.drop pre.length = w ++ post := by rw [heq, List.drop_left]
  have hpref : w.isPrefixOf (cs.drop pre.length) = true := by
    rw [hdrop]; exact List.isPrefixOf_iff_prefix.mpr (List.prefix_append w post)
  have hlast_idx : cs[pre.length + w.length - 1]? = w.getLast? := by
    rw [heq, List.getElem?_append_right (by omega)]
    have h1 : pre.length + w.length - 1 - pre.length = w.length - 1 := by omega
    rw [h1, List.getElem?_append_left (by omega), List.getLast?_eq_getElem?]
  have hbefore_end : ((cs[pre.length + w.length - 1]?).map isWordChar).getD false = true := by
    cases hw : w.getLast? with
    | none => exact absurd (List.getLast?_eq_none_iff.mp hw) hne
    | some c => rw [hlast_idx, hw]; simp [hlast c (by rw [hw]; rfl)]
  have hend_idx : cs[pre.length + w.length]? = post.head? := by
    rw [heq, List.getElem?_append_right (by omega)]
    have h2 : pre.length + w.length - pre.length = w.length := by omega
    rw [h2, List.getElem?_append_right (Nat.le_refl _), Nat.sub_self,
      ← List.head?_eq_getElem?]
  have hafter_end : ((cs[pre.length + w.length]?).map isWordChar).getD false = false := by
    cases hp : post.head? with
    | none => rw [hend_idx, hp]; rfl
    | some c => rw [hend_idx, hp]; simp [hpost c (by rw [hp]; rfl)]
  have hb2 : wordBoundaryAt cs (pre.length + w.length) = true := by
    unfold wordBoundaryAt
    have hne0 : ¬(pre.length + w.length = 0) := by omega
    simp [hne0, hbefore_end, hafter_end]
  have hmatch : wordMatchAt w cs pre.length = true := by
    unfold wordMatchAt; rw [hb1, hpref, hb2]; rfl
  have hmem : pre.length ∈ List.range (cs.length + 1) := by
    rw [List.mem_range]; omega
  exact List.any_eq_true.mpr ⟨pre.length, hmem, hmatch⟩

/-- A successful `\b`-anchored regex search yields a whole-word occurrence
(for a word that starts and ends with word characters). -/
theorem occurs_of_wordSearch {w cs : Str} (hne : w ≠ [])
    (hhead : ∀ c ∈ w.head?, isWordChar c = true)
    (hlast : ∀ c ∈ w.getLast?, isWordChar c = true)
    (hs : wordSearch w cs = true) : occursWholeWord w cs := by
  obtain ⟨p, hp, hm⟩ := List.any_eq_true.mp hs
  rw [List.mem_range] at hp
  unfold wordMatchAt at hm
  simp only [Bool.and_eq_true] at hm
  obtain ⟨⟨hb1, hpref⟩, hb2⟩ := hm
  rw [ List.isPrefixOf_iff_prefix] at hpref
  obtain ⟨rest, hrest⟩ := hpref
  have hplen : p ≤ cs.length := by omega
  have hlen_take : (cs.take p).length = p := by rw [List.length_take]; omega
  have heq : cs = cs.take p ++ (w ++ rest) := by rw [hrest, List.take_append_drop]
  have hwlen : 1 ≤ w.length := List.length_pos.mpr hne
  set pre := cs.take p with hpredef
  rw [heq] at hb1 hb2
  have hafter_idx : (pre ++ (w ++ rest))[p]? = w.head? := by
    rw [List.getElem?_append_right (Nat.le_of_eq hlen_take), hlen_take, Nat.sub_self,
      ← List.head?_eq_getElem?, head?_append_of_ne_nil hne]
  have hafter_word : (((pre ++ (w ++ rest))[p]?).map isWordChar).getD false = true := by
    cases hw : w.head? with
    | none => exact absurd (List.head?_eq_none_iff.mp hw) hne
    | some c => rw [hafter_idx, hw]; simp [hhead c (by rw [hw]; rfl)]
  have hbefore_end_idx : (pre ++ (w ++ rest))[p + w.length - 1]? = w.getLast? := by
    rw [List.getElem?_append_right (by omega)]
    have h1 : p + w.length - 1 - pre.length = w.length - 1 := by omega
    rw [h1, List.getElem?_append_left (by omega), List.getLast?_eq_getElem?]
  have hbefore_end_word :
      (((pre ++ (w ++ rest))[p + w.length - 1]?).map isWordChar).getD false = true := by
    cases hw : w.getLast? with
    | none => exact absurd (List.getLast?_eq_none_iff.mp hw) hne
    | some c => rw [hbefore_end_idx, hw]; simp [hlast c (by rw [hw]; rfl)]
  have hend_idx : (pre ++ (w ++ rest))[p + w.length]? = rest.head? := by
    rw [List.getElem?_append_right (by omega)]
    have h2 : p + w.length - pre.length = w.length := by omega
    rw [h2, List.getElem?_append_right (Nat.le_refl _), Nat.sub_self,
      ← List.head?_eq_getElem?]
  refine ⟨pre, rest, by rw [List.append_assoc]; exact heq, ?_, ?_⟩
  · intro c hc
    have hpre_ne : pre ≠ [] := by
      intro h
      rw [h] at hc
      exact absurd hc (by simp)
    have hp0 : ¬(p = 0) := by
      intro h
      rw [h] at hlen_take
      exact hpre_ne (List.length_eq_zero.mp hlen_take)
    unfold wordBoundaryAt at hb1
    rw [if_neg hp0, hafter_word, bne_iff_ne] at hb1
    have hbefore_false :
        (((pre ++ (w ++ rest))[p - 1]?).map isWordChar).getD false = false := by
      cases hb : ((pre ++ (w ++ rest))[p - 1]?).map isWordChar |>.getD false
      · rfl
      · exact absurd hb (by intro h; exact hb1 (by rw [h]))
    have hbefore_idx : (pre ++ (w ++ rest))[p - 1]? = pre.getLast? := by
      rw [List.getElem?_append_left (by omega), List.getLast?_eq_getElem?, hlen_take]
    rw [hbefore_idx, hc] at hbefore_false
    simpa using hbefore_false
  · intro c hc
    unfold wordBoundaryAt at hb2
    have hpw0 : ¬(p + w.length = 0) := by omega
    rw [if_neg hpw0, hbefore_end_word, bne_iff_ne] at hb2
    have hafter_false :
        (((pre ++ (w ++ rest))[p + w.length]?).map isWordChar).getD false = false := by
      cases hb : ((pre ++ (w ++ rest))[p + w.length]?).map isWordChar |>.getD false
      · rfl
      · exact absurd hb (by intro h; exact hb2 (by rw [h]))
    rw [hend_idx, hc] at hafter_false
    simpa using hafter_false

/-- C6: for every lexicon term that begins and ends with word characters,
a whole-word occurrence in the lowered text (term bounded by non-word
characters or the string edges, case-insensitively) makes the detector
report the term — as the lexicon entry itself, in a duplicate-free result —
while the exact-match pass reports nothing when the term has no whole-word
occurrence (e.g. it occurs only inside a longer word). -/
theorem claim_C6_exact_word_match (banned : List Str) (text T : Str)
    (hT : T ∈ banned) (hne : pyLower T ≠ [])
    (hhead : ∀ c ∈ (pyLower T).head?, isWordChar c = true)
    (hlast : ∀ c ∈ (pyLower T).getLast?, isWordChar c = true) :
    (occursWholeWord (pyLower T) (pyLower text) →
       T ∈ contains_banned_words banned text ∧
       (contains_banned_words banned text).Nodup) ∧
    (¬ occursWholeWord (pyLower T) (pyLower text) →
       T ∉ check_direct banned (pyLower text)) := by
  constructor
  · intro hocc
    refine ⟨?_, List.nodup_dedup _⟩
    exact mem_contains_banned_words.mpr
      (Or.inl (mem_check_direct.mpr ⟨hT, wordSearch_of_occurs hne hhead hlast hocc⟩))
  · intro hnocc hmem
    exact hnocc (occurs_of_wordSearch hne hhead hlast (mem_check_direct.mp hmem).2)

/-- C6 witness: "kill" occurring as a whole word is reported, uniquely. -/
theorem claim_C6_witness :
    "kill".toList ∈ contains_banned_words ["kill".toList] "I want to KILL someone".toList ∧
    (contains_banned_words ["kill".toList] "I want to KILL someone".toList).Nodup :=
  (claim_C6_exact_word_match ["kill".toList] "I want to KILL someone".toList "kill".toList
      (by decide) (by decide) (by decide) (by decide)).1
    ⟨"i want to ".toList, " someone".toList, by decide, by decide, by decide⟩

theorem matchesAt_lit_step {s rest : Str} {ts : List Tok} (h : matchesAt ts rest = true) :
    matchesAt (Tok.lit s :: ts) (s ++ rest) = true := by
  simp [matchesAt, List.isPrefixOf_iff_prefix, List.prefix_append, List.drop_left, h]

theorem matchesAt_alts_step {ss : List Str} {ts : List Tok} {rest s : Str}
    (hs : s ∈ ss) (h : matchesAt ts rest = true) :
    matchesAt (Tok.alts ss :: ts) (s ++ rest) = true := by
  simp only [matchesAt, List.any_eq_true]
  exact ⟨s, hs, by
    simp [List.isPrefixOf_iff_prefix, List.prefix_append, List.drop_left, h]⟩

theorem matchesAt_gap_step {n : Nat} {ts : List Tok} (k : Nat) {cs : Str}
    (hk : k ≤ n) (hkl : k ≤ cs.length)
    (hnl : (cs.take k).all (fun c => c ≠ '\n') = true)
    (h : matchesAt ts (cs.drop k) = true) :
    matchesAt (Tok.gap n :: ts) cs = true := by
  simp only [matchesAt, List.any_eq_true]
  refine ⟨k, List.mem_range.mpr (Nat.lt_succ_of_le hk), ?_⟩
  rw [Bool.and_eq_true, Bool.and_eq_true]
  exact ⟨⟨by simpa using hkl, hnl⟩, h⟩

theorem reSearch_of_suffix {p : List Tok} {cs rest : Str}
    (hs : rest <:+ cs) (h : matchesAt p rest = true) : reSearch p cs = true := by
  simp only [reSearch, List.any_eq_true]
  exact ⟨rest, (List.mem_tails _ _).mpr hs, h⟩

theorem detect_injection_of_match {p : List Tok} (hp : p ∈ injection_patterns)
    {text rest : Str} (hsuf : rest <:+ pyLower text) (hm : matchesAt p rest = true) :
    detect_injection text = true := by
  simp only [detect_injection, List.any_eq_true]
  exact ⟨p, hp, reSearch_of_suffix hsuf hm⟩

theorem matches_pretend_to_be (post : Str) :
    matchesAt [Tok.lit "pretend".toList, Tok.gap 10,
      Tok.alts ["to".toList, "that".toList], Tok.gap 10, Tok.lit "be".toList]
      ("pretend to be".toList ++ post) = true := by
  have hsplit : "pretend to be".toList ++ post =
      "pretend".toList ++ (' ' :: ("to".toList ++ (' ' :: ("be".toList ++ post)))) := by
    simp
  rw [hsplit]
  refine matchesAt_lit_step ?_
  refine matchesAt_gap_step 1 (by omega) (by simp) (by rfl) ?_
  refine matchesAt_alts_step (by simp) ?_
  refine matchesAt_gap_step 1 (by omega) (by simp) (by rfl) ?_
  exact matchesAt_lit_step rfl

theorem matches_roleplay_as (post : Str) :
    matchesAt [Tok.lit "roleplay".toList, Tok.gap 10, Tok.lit "as".toList]
      ("roleplay as".toList ++ post) = true := by
  have hsplit : "roleplay as".toList ++ post =
      "roleplay".toList ++ (' ' :: ("as".toList ++ post)) := by simp
  rw [hsplit]
  refine matchesAt_lit_step ?_
  refine matchesAt_gap_step 1 (by omega) (by simp) (by rfl) ?_
  exact matchesAt_lit_step rfl

theorem matches_you_are_now (post : Str) :
    matchesAt [Tok.lit "you".toList, Tok.gap 10, Tok.lit "are".toList, Tok.gap 10,
      Tok.alts ["now".toList, "actually".toList]]
      ("you are now".toList ++ post) = true := by
  have hsplit : "you are now".toList ++ post =
      "you".toList ++ (' ' :: ("are".toList ++ (' ' :: ("now".toList ++ post)))) := by simp
  rw [hsplit]
  refine matchesAt_lit_step ?_
  refine matchesAt_gap_step 1 (by omega) (by simp) (by rfl) ?_
  refine matchesAt_lit_step ?_
  refine matchesAt_gap_step 1 (by omega) (by simp) (by rfl) ?_
  exact matchesAt_alts_step (by simp) rfl

/-- Generic occurrence of the source's second injection pattern
`act.{0,10}as.{0,10}(?:if|though)`: "act", then "as", then "if" or
"though", each pair separated by at most ten newline-free wildcard
characters. -/
theorem matches_act_gap (g1 g2 a post : Str)
    (h1 : g1.length ≤ 10) (h2 : g2.length ≤ 10)
    (hn1 : g1.all (fun c => c ≠ '\n') = true)
    (hn2 : g2.all (fun c => c ≠ '\n') = true)
    (ha : a = "if".toList ∨ a = "though".toList) :
    matchesAt [Tok.lit "act".toList, Tok.gap 10, Tok.lit "as".toList, Tok.gap 10,
      Tok.alts ["if".toList, "though".toList]]
      ("act".toList ++ (g1 ++ ("as".toList ++ (g2 ++ (a ++ post))))) = true := by
  refine matchesAt_lit_step ?_
  refine matchesAt_gap_step g1.length h1 (by simp) ?_ ?_
  · rw [List.take_left]; exact hn1
  · rw [List.drop_left]
    refine matchesAt_lit_step ?_
    refine matchesAt_gap_step g2.length h2 (by simp) ?_ ?_
    · rw [List.take_left]; exact hn2
    · rw [List.drop_left]
      rcases ha with rfl | rfl
      · exact matchesAt_alts_step (by simp) rfl
      · exact matchesAt_alts_step (by simp) rfl

/-- C5 counterexample: "act as a contract reviewer" contains the
role-override phrasing "act as", no banned term, and a topic keyword, yet
no injection pattern matches — the source's second pattern requires "if" or
"though" after "act ... as" — so the gate accepts the text as safe instead
of rejecting it with the injection reason. -/
theorem claim_C5_counterexample :
    isSubstring "act as".toList (pyLower "act as a contract reviewer".toList) = true ∧
    contains_banned_words ["kill".toList] "act as a contract reviewer".toList = [] ∧
    is_legal_topic ["contract".toList] [] "act as a contract reviewer".toList = true ∧
    detect_injection "act as a contract reviewer".toList = false ∧
    validate_input_safety ["kill".toList] ["contract".toList] []
      "act as a contract reviewer".toList = (true, [], "Input is safe and relevant") := by
  decide

/-- C5 (amended): for every text with no detected banned word that is
topic-relevant, containing (in lowered form) one of the role-override
phrasings "pretend to be", "roleplay as", "you are now", or "act" then
"as" then "if"/"though" with each pair separated by at most ten
newline-free wildcard characters — "act as" alone, with no "if"/"though"
in the window, does not match — the injection detector matches and the
gate rejects with the injection reason. -/
theorem claim_C5_amended (banned keywords phrases : List Str) (text : Str)
    (hb : contains_banned_words banned text = [])
    (ht : is_legal_topic keywords phrases text = true)
    (hph : "pretend to be".toList <:+: pyLower text ∨
           "roleplay as".toList <:+: pyLower text ∨
           "you are now".toList <:+: pyLower text ∨
           (∃ g1 g2 a : Str, g1.length ≤ 10 ∧ g2.length ≤ 10 ∧
              g1.all (fun c => c ≠ '\n') = true ∧ g2.all (fun c => c ≠ '\n') = true ∧
              (a = "if".toList ∨ a = "though".toList) ∧
              ("act".toList ++ g1 ++ "as".toList ++ g2 ++ a) <:+: pyLower text)) :
    validate_input_safety banned keywords phrases text =
      (false, [], "Potential prompt injection detected") := by
  have hinj : detect_injection text = true := by
    rcases hph with h | h | h | h
    · obtain ⟨s, t, hst⟩ := h
      exact detect_injection_of_match (by simp [injection_patterns])
        ⟨s, by rw [← List.append_assoc]; exact hst⟩ (matches_pretend_to_be t)
    · obtain ⟨s, t, hst⟩ := h
      exact detect_injection_of_match (by simp [injection_patterns])
        ⟨s, by rw [← List.append_assoc]; exact hst⟩ (matches_roleplay_as t)
    · obtain ⟨s, t, hst⟩ := h
      exact detect_injection_of_match (by simp [injection_patterns])
        ⟨s, by rw [← List.append_assoc]; exact hst⟩ (matches_you_are_now t)
    · obtain ⟨g1, g2, a, hg1, hg2, hn1, hn2, ha, hinf⟩ := h
      obtain ⟨s, t, hst⟩ := hinf
      have hm := matches_act_gap g1 g2 a t hg1 hg2 hn1 hn2 ha
      have hshape : "act".toList ++ (g1 ++ ("as".toList ++ (g2 ++ (a ++ t)))) =
          "act".toList ++ g1 ++ "as".toList ++ g2 ++ a ++ t := by
        simp [List.append_assoc]
      rw [hshape] at hm
      exact detect_injection_of_match (by simp [injection_patterns])
        ⟨s, by rw [← List.append_assoc]; exact hst⟩ hm
  simp [validate_input_safety, hb, ht, hinj]

/-- C5 witness: "act as  if my contract is void" — "act as" followed by
"if" across a two-character wildcard gap — is rejected as prompt
injection. -/
theorem claim_C5_witness :
    validate_input_safety ["kill".toList] ["contract".toList] []
      "act as  if my contract is void".toList =
      (false, [], "Potential prompt injection detected") :=
  claim_C5_amended ["kill".toList] ["contract".toList] []
    "act as  if my contract is void".toList (by decide) (by decide)
    (Or.inr (Or.inr (Or.inr ⟨" ".toList, "  ".toList, "if".toList, by decide, by decide,
      by decide, by decide, Or.inl rfl, by decide⟩)))

/-- C1: the gate runs its checks in fixed order with the first failing
check winning — banned words (matched terms reported, no later check run),
then topical relevance, then injection patterns, else safe; `reason`
strings embed the spec's BANNED_CONTENT / OFF_TOPIC / INJECTION_DETECTED /
SAFE tags.  In particular a text that contains (lowered, with no leetspeak
key characters in the term) a disallowed term together with a topic keyword
is rejected with the banned-content reason, whatever the other checks would
say. -/
theorem claim_C1_gate_order (banned keywords phrases : List Str) (text : Str) :
    (contains_banned_words banned text ≠ [] →
       validate_input_safety banned keywords phrases text =
         (false, contains_banned_words banned text, "Contains banned words")) ∧
    (contains_banned_words banned text = [] →
       is_legal_topic keywords phrases text = false →
       validate_input_safety banned keywords phrases text =
         (false, [], "Off-topic request")) ∧
    (contains_banned_words banned text = [] →
       is_legal_topic keywords phrases text = true →
       detect_injection text = true →
       validate_input_safety banned keywords phrases text =
         (false, [], "Potential prompt injection detected")) ∧
    (contains_banned_words banned text = [] →
       is_legal_topic keywords phrases text = true →
       detect_injection text = false →
       validate_input_safety banned keywords phrases text =
         (true, [], "Input is safe and relevant")) ∧
    (∀ T K, T ∈ banned → K ∈ keywords →
       (pyLower T).map leetChar = pyLower T →
       pyLower T <:+: pyLower text →
       pyLower K <:+: pyLower text →
       (validate_input_safety banned keywords phrases text).2.2 =
         "Contains banned words") := by
  refine ⟨?_, ?_, ?_, ?_, ?_⟩
  · intro h; simp [validate_input_safety, h]
  · intro h ht; simp [validate_input_safety, h, ht]
  · intro h ht hi; simp [validate_input_safety, h, ht, hi]
  · intro h ht hi; simp [validate_input_safety, h, ht, hi]
  · intro T K hT hK hfix hTin hKin
    have hmem : T ∈ contains_banned_words banned text :=
      mem_contains_banned_of_leet hT hfix hTin
    have hne : contains_banned_words banned text ≠ [] := List.ne_nil_of_mem hmem
    simp [validate_input_safety, hne]

/-- C1 witness: a text with both the disallowed term "kill" and the topic
keyword "contract" is rejected with the banned-content reason. -/
theorem claim_C1_witness :
    (validate_input_safety ["kill".toList] ["contract".toList] []
        "how can I kill my contract partner".toList).2.2 = "Contains banned words" :=
  (claim_C1_gate_order ["kill".toList] ["contract".toList] []
      "how can I kill my contract partner".toList).2.2.2.2
    "kill".toList "contract".toList (by decide) (by decide) (by decide)
    (by decide) (by decide)
